import Mathlib

/-!
Shallow embedding of the adhanctl prayer-times pipeline.

Sources embedded here:
- src/internal/prayer/times.go  (ParseTimes, parseDateTime, TimezoneFromResp,
  NextEventAfter, UpcomingEvents, HumanDuration, HijriString, FormatTime)
- src/internal/api/aladhan.go   (Response data model, fields used by the core)
- the waybar Build status-line view (the four-argument Build wired to
  cmd/adhanctl/main.go runWaybar)
- the serve-mode scheduling loop of src/cmd/adhanctl/main.go (runServe,
  scheduleNotification), modelled as the multiset of notifications fired.

Modelling conventions:
- Go strings are `List Char` (`Str`); the handful of strings-library calls the
  code makes (Fields, Split, TrimSpace, Index, Atoi) are re-implemented over
  `List Char` so that everything kernel-evaluates.
- `time.Time` values are wall-clock minutes in the single resolved location of
  one invocation, as an unbounded `Int`.  Every prayer instant the program
  builds has zero seconds and nanoseconds (`time.Date(..., h, m, 0, 0, loc)`),
  and all comparisons, subtractions and additions in the embedded code happen
  between instants of the same fixed-offset location, where wall-minute order
  and differences agree with absolute-time order and differences.  Durations
  are likewise minutes.
- `time.Date`'s calendar normalisation (month folded into year, out-of-range
  day/hour/minute rolled over) is reproduced by `goDate` below, mirroring the
  standard library's algorithm on a proleptic Gregorian day count.
- The ambient clock `time.Now().In(loc)` is passed in explicitly as a `GoNow`
  record (its instant plus its calendar date components in `loc`).
- The timezone database behind `time.LoadLocation` is an explicit parameter
  `db : Str → Option Location`; `time.Local` is an explicit parameter.
- `strconv.Atoi` is modelled without the 64-bit overflow failure case (inputs
  in this program are short clock fields).
-/

/-- Go strings, as lists of characters. -/
abbrev Str := List Char

/-- ASCII whitespace test standing in for the unicode.IsSpace class used by
strings.Fields and strings.TrimSpace (payload tokens are ASCII). -/
def goIsSpace (c : Char) : Bool :=
  c = ' ' || c = '\t' || c = '\n' || c = '\r'

/-- Accumulator worker for `goFields`. -/
def goFieldsAux : Str → Str → List Str
  | [], acc => if acc = [] then [] else [acc.reverse]
  | c :: rest, acc =>
    if goIsSpace c then
      if acc = [] then goFieldsAux rest [] else acc.reverse :: goFieldsAux rest []
    else goFieldsAux rest (c :: acc)

/-- strings.Fields: split around runs of whitespace, no empty fields. -/
def goFields (s : Str) : List Str := goFieldsAux s []

/-- Accumulator worker for `goSplit`. -/
def goSplitAux (sep : Char) : Str → Str → List Str
  | [], acc => [acc.reverse]
  | c :: rest, acc =>
    if c = sep then acc.reverse :: goSplitAux sep rest []
    else goSplitAux sep rest (c :: acc)

/-- strings.Split with a one-character separator (the only form the code
uses, on ":" and "-"); empty fields are kept, and the result is never empty. -/
def goSplit (s : Str) (sep : Char) : List Str := goSplitAux sep s []

/-- strings.TrimSpace. -/
def goTrimSpace (s : Str) : Str :=
  ((s.dropWhile goIsSpace).reverse.dropWhile goIsSpace).reverse

/-- Decimal value of a digit run. -/
def digitsVal (s : Str) : Nat :=
  s.foldl (fun a c => a * 10 + (c.toNat - 48)) 0

/-- strconv.Atoi with its error ignored, exactly as the call sites
`h, _ := strconv.Atoi(...)` use it: a syntactically invalid number yields 0.
Valid forms are an optional sign followed by one or more ASCII digits. -/
def goAtoi (s : Str) : Int :=
  match s with
  | [] => 0
  | '+' :: rest =>
    if rest ≠ [] ∧ rest.all Char.isDigit then (digitsVal rest : Int) else 0
  | '-' :: rest =>
    if rest ≠ [] ∧ rest.all Char.isDigit then -(digitsVal rest : Int) else 0
  | _ => if s.all Char.isDigit then (digitsVal s : Int) else 0

/-- Fuelled decimal digit printer (fuel bounds the digit count). -/
def natDigits : Nat → Nat → Str
  | 0, _ => []
  | fuel + 1, n =>
    if n < 10 then [Char.ofNat (48 + n)]
    else natDigits fuel (n / 10) ++ [Char.ofNat (48 + n % 10)]

/-- Decimal rendering of a natural number. -/
def natStr (n : Nat) : Str := natDigits (n + 1) n

/-- Go fmt %d on an integer. -/
def intStr (i : Int) : Str :=
  if i < 0 then '-' :: natStr (-i).toNat else natStr i.toNat

/-- Go fmt %02d, as used for clock fields (zero-pad a one-digit value). -/
def pad2 (i : Int) : Str :=
  if 0 ≤ i ∧ i < 10 then '0' :: natStr i.toNat else intStr i

/-- Go fmt %04d-style year field of the "02-01-2006" layout. -/
def pad4 (i : Int) : Str :=
  if 0 ≤ i then
    let s := natStr i.toNat
    List.replicate (4 - s.length) '0' ++ s
  else intStr i

/-- Left-justified %-8s padding used by the schedule rows. -/
def padRight (s : Str) (w : Nat) : Str :=
  s ++ List.replicate (w - s.length) ' '

/-- Gregorian leap-year test of the standard time package (years in this
program are positive, where Euclidean and truncated remainder agree). -/
def isLeap (y : Int) : Bool :=
  y % 4 = 0 && (y % 100 ≠ 0 || y % 400 = 0)

/-- Cumulative day counts before each zero-based month, non-leap. -/
def daysBefore : Int → Int
  | 0 => 0
  | 1 => 31
  | 2 => 59
  | 3 => 90
  | 4 => 120
  | 5 => 151
  | 6 => 181
  | 7 => 212
  | 8 => 243
  | 9 => 273
  | 10 => 304
  | 11 => 334
  | _ => 0

/-- Month normalisation of time.Date: fold a zero-based month that is out of
[0, 11] into the year, exactly as the time package's norm helper does. -/
def normYM (year m : Int) : Int × Int :=
  let p := if m < 0 then (year - (((-m - 1) / 12) + 1), m + (((-m - 1) / 12) + 1) * 12)
           else (year, m)
  if p.2 ≥ 12 then (p.1 + p.2 / 12, p.2 % 12) else p

/-- Days elapsed from the time package's absolute zero year to 1 January of
the given year (the 400/100/4-year cycle computation of daysSinceEpoch). -/
def daysSinceEpoch (year : Int) : Int :=
  let y := year + 292277022399
  146097 * (y / 400) + 36524 * ((y % 400) / 100) +
    1461 * (((y % 400) % 100) / 4) + 365 * (((y % 400) % 100) % 4)

/-- Absolute day number of a (possibly unnormalised) Gregorian date, after
time.Date's month normalisation; an out-of-range day simply adds days. -/
def goDateDays (year month day : Int) : Int :=
  let ym := normYM year (month - 1)
  daysSinceEpoch ym.1 + daysBefore ym.2 +
    (if isLeap ym.1 ∧ ym.2 ≥ 2 then 1 else 0) + (day - 1)

/-- Wall-clock minutes of time.Date(year, month, day, h, min, 0, 0, loc):
hour and minute are not range-checked, they roll over through the day count
exactly as in the standard library's seconds arithmetic. -/
def goDate (year month day h min : Int) : Int :=
  goDateDays year month day * 1440 + h * 60 + min

/-- Named timezone, standing in for *time.Location. -/
structure Location where
  locName : Str
deriving DecidableEq, Repr

namespace api

/-- Localised Hijri month names (api.Hijri.Month fields used by the core). -/
structure HijriMonth where
  en : Str
  ar : Str
deriving DecidableEq, Repr

/-- Localised Hijri weekday names. -/
structure HijriWeekday where
  en : Str
  ar : Str
deriving DecidableEq, Repr

/-- Hijri date descriptor (fields of api.Hijri read by the core). -/
structure Hijri where
  date : Str
  month : HijriMonth
  weekday : HijriWeekday
deriving DecidableEq, Repr

/-- Gregorian date descriptor (only the Date string is read). -/
structure Gregorian where
  date : Str
deriving DecidableEq, Repr

/-- api.Date. -/
structure DateInfo where
  gregorian : Gregorian
  hijri : Hijri
deriving DecidableEq, Repr

/-- api.Meta (only the Timezone field is read by the core). -/
structure Meta where
  timezone : Str
deriving DecidableEq, Repr

/-- api.Data; the Timings map[string]string is an association list with
unique keys (it is decoded from a JSON object), looked up by first match. -/
structure Data where
  timings : List (Str × Str)
  date : DateInfo
  meta : Meta
deriving DecidableEq, Repr

/-- api.Response (the Code and Msg fields are not read by the core). -/
structure Response where
  data : Data
deriving DecidableEq, Repr

end api

/-- Map lookup on the timings association list. -/
def lookupTiming (ts : List (Str × Str)) (name : Str) : Option Str :=
  (ts.find? (fun p => decide (p.1 = name))).map (fun p => p.2)

/-- Result of time.Now().In(loc), passed explicitly: its instant in wall
minutes plus the calendar date components the code reads from it. -/
structure GoNow where
  minutes : Int
  year : Int
  month : Int
  day : Int
deriving DecidableEq, Repr

/-- One parsed prayer event (prayer.Event): a name and an absolute instant. -/
structure Event where
  name : Str
  when : Int
deriving DecidableEq, Repr

/-- Sort order used by both sort.Slice calls (less = When.Before). -/
def eventLe (a b : Event) : Prop := a.when ≤ b.when

instance : DecidableRel eventLe := fun a b => Int.decLe a.when b.when

instance : IsTotal Event eventLe := ⟨fun a b => Int.le_total a.when b.when⟩

instance : IsTrans Event eventLe := ⟨fun _ _ _ => Int.le_trans⟩

/-- Comparison sort on events by instant, modelling sort.Slice with the
strict Before comparator: the output is non-decreasing in the instant and a
permutation of the input (the order among equal instants is not specified by
the Go sort and is irrelevant to every property stated below). -/
def sortEvents (l : List Event) : List Event := List.insertionSort eventLe l

/-- Fixed prayer-name enumeration prayer.StandardOrder. -/
def StandardOrder : List Str :=
  [("Fajr").data, ("Sunrise").data, ("Dhuhr").data, ("Asr").data,
   ("Maghrib").data, ("Isha").data]

/-- Layout "02-01-2006" rendering of the current date, used when the payload
carries no Gregorian date string. -/
def formatNowDate (now : GoNow) : Str :=
  pad2 now.day ++ ("-").data ++ pad2 now.month ++ ("-").data ++ pad4 now.year

/-- Lines 64-89 of times.go, parseDateTime: split the time token on ":",
fail only when there are fewer than two fields; read the first two fields and
the day-month-year fields with error-ignoring Atoi; substitute the current
date when any date component is zero; build the instant with time.Date. -/
def parseDateTime (gregDate timeStr : Str) (now : GoNow) : Option Int :=
  let parts := goSplit timeStr ':'
  if parts.length < 2 then none
  else
    let h := goAtoi (parts.getD 0 [])
    let m := goAtoi (parts.getD 1 [])
    let dateParts := goSplit gregDate '-'
    let day0 := if dateParts.length ≥ 3 then goAtoi (dateParts.getD 0 []) else 0
    let month0 := if dateParts.length ≥ 3 then goAtoi (dateParts.getD 1 []) else 0
    let year0 := if dateParts.length ≥ 3 then goAtoi (dateParts.getD 2 []) else 0
    let fallback := day0 = 0 ∨ month0 = 0 ∨ year0 = 0
    let day := if fallback then now.day else day0
    let month := if fallback then now.month else month0
    let year := if fallback then now.year else year0
    some (goDate year month day h m)

/-- Token extraction of ParseTimes lines 38-46: first whitespace-separated
field, then cut at the first "(" and trim (strings.Index / TrimSpace). -/
def extractToken (tstr : Str) : Option Str :=
  match goFields tstr with
  | [] => none
  | tok :: _ =>
    some (if tok.any (fun c => c = '(') then
            goTrimSpace (tok.takeWhile (fun c => decide (c ≠ '(')))
          else tok)

/-- One loop body of ParseTimes for a present timing string: the event it
contributes, or none when the row is skipped. -/
def rowEvent (gregDate : Str) (now : GoNow) (name tstr : Str) : Option Event :=
  match extractToken tstr with
  | none => none
  | some ts =>
    match parseDateTime gregDate ts now with
    | none => none
    | some dt => some ⟨name, dt⟩

/-- Gregorian date string actually used: the payload's, or the formatted
current date when the payload's is empty (ParseTimes lines 26-30). -/
def effectiveGregDate (resp : api.Response) (now : GoNow) : Str :=
  if resp.data.date.gregorian.date = [] then formatNowDate now
  else resp.data.date.gregorian.date

/-- Loop body of ParseTimes for one enumerated name: the event the row for
that name contributes, or none when the name is absent or the row is
skipped. -/
def parseRow (resp : api.Response) (now : GoNow) (name : Str) : Option Event :=
  match lookupTiming resp.data.timings name with
  | none => none
  | some tstr => rowEvent (effectiveGregDate resp now) now name tstr

/-- Lines 23-62 of times.go, ParseTimes: walk the fixed name enumeration,
skip absent names and rows whose token fails parseDateTime, then sort the
collected events by instant.  The unused loc parameter mirrors the Go
signature (in the fixed-offset minute model the location is implicit). -/
def ParseTimes (resp : api.Response) (loc : Location) (now : GoNow) : List Event :=
  sortEvents (StandardOrder.filterMap (parseRow resp now))

/-- Lines 91-104 of times.go, TimezoneFromResp: empty name or a failed
database load falls back to the local timezone. -/
def TimezoneFromResp (db : Str → Option Location) (localLoc : Location)
    (resp : api.Response) : Location :=
  let tz := resp.data.meta.timezone
  if tz = [] then localLoc
  else
    match db tz with
    | none => localLoc
    | some loc => loc

/-- Loop of NextEventAfter with its running best candidate. -/
def nextEventAux (after : Int) : List Event → Option Event → Option Event
  | [], best => best
  | e :: rest, best =>
    nextEventAux after rest
      (if after < e.when then
        match best with
        | none => some e
        | some b => if e.when < b.when then some e else some b
      else best)

/-- Lines 106-117 of times.go, NextEventAfter: smallest instant strictly
after the reference, first such event kept on ties. -/
def NextEventAfter (events : List Event) (after : Int) : Option Event :=
  nextEventAux after events none

/-- Lines 119-134 of times.go, UpcomingEvents: keep events strictly inside
(start, start + within), then sort by instant. -/
def UpcomingEvents (events : List Event) (start within : Int) : List Event :=
  let limit := start + within
  sortEvents (events.filter (fun e => decide (start < e.when) && decide (e.when < limit)))

/-- Lines 136-153 of times.go, HumanDuration, at the minute granularity of
the model (the Go code truncates its nanosecond duration to whole minutes
first; every instant this program builds is minute-aligned). -/
def HumanDuration (d : Int) : Str :=
  if d < 0 then ("passed").data
  else
    let totalMins := d
    if totalMins < 60 then intStr totalMins ++ ("m").data
    else
      let h := totalMins / 60
      let m := totalMins % 60
      if m = 0 then intStr h ++ ("h").data
      else intStr h ++ ("h").data ++ pad2 m ++ ("m").data

/-- Lines 155-181 of times.go, HijriString: join the non-empty components
with single spaces. -/
def HijriString (resp : api.Response) (arabic : Bool) : Str :=
  let h := resp.data.date.hijri
  let parts1 : List Str := if h.date ≠ [] then [h.date] else []
  let month := if arabic then h.month.ar else h.month.en
  let parts2 := if month ≠ [] then parts1 ++ [month] else parts1
  let weekday := if arabic then h.weekday.ar else h.weekday.en
  let parts3 := if weekday ≠ [] then parts2 ++ [weekday] else parts2
  List.intercalate (" ").data parts3

/-- Lines 183-188 of times.go, FormatTime: layout "15:04" or "03:04 PM" on
the wall clock of the instant. -/
def FormatTime (t : Int) (ampm : Bool) : Str :=
  let dayMin := t % 1440
  let hh := dayMin / 60
  let mm := dayMin % 60
  if ampm then
    let h12 := if hh % 12 = 0 then 12 else hh % 12
    pad2 h12 ++ (":").data ++ pad2 mm ++
      (if hh < 12 then (" AM").data else (" PM").data)
  else
    pad2 hh ++ (":").data ++ pad2 mm

namespace waybar

/-- waybar.Output: the status-line record (the Class field is a Lean keyword,
so it is embedded as cls). -/
structure Output where
  text : Str
  tooltip : Str
  cls : Str
deriving DecidableEq, Repr

/-- Schedule block of the tooltip (the nested loops over StandardOrder and
events with break, i.e. the first event of each name, with its marker). -/
def scheduleLines (events : List Event) (next : Option Event) (now : GoNow)
    (ampm : Bool) : List Str :=
  StandardOrder.filterMap (fun name =>
    match events.find? (fun e => decide (e.name = name)) with
    | none => none
    | some e =>
      let marker :=
        if e.when < now.minutes then (" ✓").data
        else
          match next with
          | some nx => if e.name = nx.name then (" ←").data else []
          | none => []
      some (("  ").data ++ padRight name 8 ++ FormatTime e.when ampm ++ marker))

/-- Text field and tooltip lines of waybar.Build (the four-argument Build
called by runWaybar): resolve the timezone, parse, query the next event, and
assemble the compact text plus the tooltip line list in order. -/
def buildParts (resp : api.Response) (db : Str → Option Location)
    (localLoc : Location) (now : GoNow) (ampm arabic short : Bool) :
    Str × List Str :=
  let loc := TimezoneFromResp db localLoc resp
  let events := ParseTimes resp loc now
  let next := NextEventAfter events now.minutes
  let hijri := HijriString resp arabic
  let header : List Str := if hijri ≠ [] then [("📅 ").data ++ hijri] else []
  let tn : Str × Str :=
    match next with
    | some nx =>
      let rem := HumanDuration (nx.when - now.minutes)
      let timeStr := FormatTime nx.when ampm
      (if short then nx.name ++ (" ").data ++ timeStr
       else nx.name ++ (" ").data ++ timeStr ++ (" (").data ++ rem ++ (")").data,
       ("Next: ").data ++ nx.name ++ (" — ").data ++ rem)
    | none => (("Internal Error").data, ("Internal Error").data)
  (tn.1,
   header ++ [tn.2] ++ [[], ("Today\x27s Schedule:").data] ++
     scheduleLines events next now ampm)

/-- waybar.Build: the status-line record, with the tooltip lines joined by
newlines and the fixed style class. -/
def Build (resp : api.Response) (db : Str → Option Location)
    (localLoc : Location) (now : GoNow) (ampm arabic short : Bool) : Output :=
  let p := buildParts resp db localLoc now ampm arabic short
  { text := p.1
    tooltip := List.intercalate [Char.ofNat 10] p.2
    cls := ("adhan").data }

end waybar

/-- Timers armed by one pass of runServe's scheduleEvents over an already
parsed event list, at clock instant now: UpcomingEvents over the 24-hour
horizon, minus events already in the past (main.go lines 378-390).  Each
armed timer is an independent background task that will fire a notification
at its event's instant; nothing in the program cancels it. -/
def armTimers (events : List Event) (now : Int) : List Event :=
  (UpcomingEvents events now (24 * 60)).filter (fun e => decide (¬ e.when < now))

/-- Notifications fired by the serve loop on a run that performs one
scheduleEvents pass at each instant of refreshTimes (every pass parsing the
same event list) and keeps running until endTime: every armed timer whose
instant has arrived fires, once per time it was armed, because armed timers
from earlier cycles are never invalidated (main.go lines 354-415). -/
def servedNotifications (events : List Event) (refreshTimes : List Int)
    (endTime : Int) : List Event :=
  (refreshTimes.flatMap (fun t => armTimers events t)).filter
    (fun e => decide (e.when ≤ endTime))

/-- Membership is preserved by the event sort. -/
lemma mem_sortEvents {e : Event} {l : List Event} : e ∈ sortEvents l ↔ e ∈ l :=
  (List.perm_insertionSort eventLe l).mem_iff

/-- The event sort is a permutation of its input. -/
lemma sortEvents_perm (l : List Event) : (sortEvents l).Perm l :=
  List.perm_insertionSort eventLe l

/-- The event sort really sorts by instant. -/
lemma sorted_sortEvents (l : List Event) : List.Sorted eventLe (sortEvents l) :=
  List.sorted_insertionSort eventLe l

/-- C7: for every payload, the event sequence returned by ParseTimes is
sorted by instant in ascending order, whatever the payload rows and the
name-enumeration lookup produced before the final sort. -/
theorem parseTimes_sorted (resp : api.Response) (loc : Location) (now : GoNow) :
    List.Sorted eventLe (ParseTimes resp loc now) :=
  sorted_sortEvents _

/-- C6: UpcomingEvents returns exactly the events strictly inside
(start, start + within) - a permutation of that filter of its input, every
member strictly inside the window - sorted ascending by instant, and two
calls with identical arguments return identical output. -/
theorem upcomingEvents_spec (events : List Event) (start within : Int) :
    (UpcomingEvents events start within).Perm
      (events.filter (fun e =>
        decide (start < e.when) && decide (e.when < start + within))) ∧
    (∀ e ∈ UpcomingEvents events start within,
      e ∈ events ∧ start < e.when ∧ e.when < start + within) ∧
    List.Sorted eventLe (UpcomingEvents events start within) ∧
    UpcomingEvents events start within = UpcomingEvents events start within := by
  refine ⟨sortEvents_perm _, ?_, sorted_sortEvents _, rfl⟩
  intro e he
  have he' := mem_sortEvents.mp he
  rw [List.mem_filter] at he'
  refine ⟨he'.1, ?_, ?_⟩
  · have := he'.2
    simp only [Bool.and_eq_true, decide_eq_true_eq] at this
    exact this.1
  · have := he'.2
    simp only [Bool.and_eq_true, decide_eq_true_eq] at this
    exact this.2

/-- C6 witness: the window conjunct evaluated on a concrete call. -/
theorem upcomingEvents_spec_witness :
    (⟨("Dhuhr").data, 750⟩ : Event) ∈
      UpcomingEvents [⟨("Dhuhr").data, 750⟩, ⟨("Fajr").data, 312⟩] 600 1440 ∧
    (600 : Int) < (750 : Int) ∧ (750 : Int) < 600 + 1440 := by
  have h :=
    (upcomingEvents_spec [⟨("Dhuhr").data, 750⟩, ⟨("Fajr").data, 312⟩] 600 1440).2.1
      ⟨("Dhuhr").data, 750⟩ (by decide)
  exact ⟨by decide, h.2.1, h.2.2⟩

/-- C8: HumanDuration renders a negative duration as the fixed passed
marker, a duration under sixty minutes as the minute count suffixed m, a
whole number of hours as the hour count suffixed h, and anything else as
hours then zero-padded minutes; in particular -5m, 45m, 120m and 125m render
as passed, 45m, 2h and 2h05m. -/
theorem humanDuration_spec (d : Int) :
    (d < 0 → HumanDuration d = ("passed").data) ∧
    (0 ≤ d → d < 60 → HumanDuration d = intStr d ++ ("m").data) ∧
    (60 ≤ d → d % 60 = 0 → HumanDuration d = intStr (d / 60) ++ ("h").data) ∧
    (60 ≤ d → d % 60 ≠ 0 →
      HumanDuration d =
        intStr (d / 60) ++ ("h").data ++ pad2 (d % 60) ++ ("m").data) ∧
    HumanDuration (-5) = ("passed").data ∧
    HumanDuration 45 = ("45m").data ∧
    HumanDuration 120 = ("2h").data ∧
    HumanDuration 125 = ("2h05m").data := by
  refine ⟨?_, ?_, ?_, ?_, by decide, by decide, by decide, by decide⟩
  · intro h
    simp only [HumanDuration, if_pos h]
  · intro h0 h60
    simp only [HumanDuration]
    rw [if_neg (by omega), if_pos h60]
  · intro h60 hmod
    simp only [HumanDuration]
    rw [if_neg (by omega), if_neg (by omega), if_pos hmod]
  · intro h60 hmod
    simp only [HumanDuration]
    rw [if_neg (by omega), if_neg (by omega), if_neg hmod]

/-- C8 witness: the padded mixed case discharged at 125 minutes. -/
theorem humanDuration_spec_witness :
    (60 : Int) ≤ 125 ∧ (125 : Int) % 60 ≠ 0 ∧
    HumanDuration 125 =
      intStr ((125 : Int) / 60) ++ ("h").data ++ pad2 ((125 : Int) % 60) ++ ("m").data := by
  refine ⟨by decide, by decide, ?_⟩
  exact (humanDuration_spec 125).2.2.2.1 (by decide) (by decide)

/-- C9: timezone resolution is total and never fails the parse: an empty
identifier or a failed database load falls back to the given local timezone,
and a successful load returns the loaded timezone. -/
theorem timezoneFromResp_spec (db : Str → Option Location) (localLoc : Location)
    (resp : api.Response) :
    (resp.data.meta.timezone = [] → TimezoneFromResp db localLoc resp = localLoc) ∧
    (resp.data.meta.timezone ≠ [] → db resp.data.meta.timezone = none →
      TimezoneFromResp db localLoc resp = localLoc) ∧
    (∀ l, resp.data.meta.timezone ≠ [] → db resp.data.meta.timezone = some l →
      TimezoneFromResp db localLoc resp = l) := by
  refine ⟨?_, ?_, ?_⟩
  · intro h
    simp only [TimezoneFromResp, if_pos h]
  · intro h hnone
    simp only [TimezoneFromResp, if_neg h, hnone]
  · intro l h hsome
    simp only [TimezoneFromResp, if_neg h, hsome]

/-- C9 witness: a one-entry database exercising all three outcomes. -/
theorem timezoneFromResp_spec_witness :
    (TimezoneFromResp
        (fun s => if s = ("Europe/London").data then some ⟨("Europe/London").data⟩ else none)
        ⟨("Local").data⟩
        ⟨⟨[], ⟨⟨[]⟩, ⟨[], ⟨[], []⟩, ⟨[], []⟩⟩⟩, ⟨("Europe/London").data⟩⟩⟩ =
      ⟨("Europe/London").data⟩) ∧
    (TimezoneFromResp
        (fun s => if s = ("Europe/London").data then some ⟨("Europe/London").data⟩ else none)
        ⟨("Local").data⟩
        ⟨⟨[], ⟨⟨[]⟩, ⟨[], ⟨[], []⟩, ⟨[], []⟩⟩⟩, ⟨("Mars/Olympus").data⟩⟩⟩ =
      ⟨("Local").data⟩) := by
  constructor
  · exact (timezoneFromResp_spec _ _ _).2.2 ⟨("Europe/London").data⟩ (by decide)
      (by simp)
  · exact (timezoneFromResp_spec _ _ _).2.1 (by decide) (by simp)

/-- Characterisation of the NextEventAfter loop returning nil. -/
lemma nextEventAux_eq_none (after : Int) (l : List Event) :
    ∀ best, nextEventAux after l best = none ↔
      best = none ∧ ∀ e ∈ l, e.when ≤ after := by
  induction l with
  | nil => intro best; simp [nextEventAux]
  | cons e rest ih =>
    intro best
    by_cases hlt : after < e.when
    · cases best with
      | none =>
        simp only [nextEventAux, if_pos hlt]
        rw [ih]
        constructor
        · rintro ⟨h, -⟩; cases h
        · rintro ⟨-, hall⟩
          exact absurd (hall e (List.mem_cons_self e rest)) (by omega)
      | some b1 =>
        simp only [nextEventAux, if_pos hlt]
        by_cases hcmp : e.when < b1.when
        · rw [if_pos hcmp, ih]
          constructor
          · rintro ⟨h, -⟩; cases h
          · rintro ⟨h, -⟩; cases h
        · rw [if_neg hcmp, ih]
          constructor
          · rintro ⟨h, -⟩; cases h
          · rintro ⟨h, -⟩; cases h
    · simp only [nextEventAux, if_neg hlt]
      rw [ih]
      constructor
      · rintro ⟨hb, hall⟩
        refine ⟨hb, fun x hx => ?_⟩
        rcases List.mem_cons.mp hx with h1 | h1
        · subst h1; omega
        · exact hall x h1
      · rintro ⟨hb, hall⟩
        exact ⟨hb, fun x hx => hall x (List.mem_cons_of_mem _ hx)⟩

/-- Invariant of the NextEventAfter loop returning a candidate: it is drawn
from the list or the accumulator, lies strictly after the reference, and is
minimal among both. -/
lemma nextEventAux_eq_some (after : Int) (l : List Event) :
    ∀ (best : Option Event) (b : Event),
      (∀ b0, best = some b0 → after < b0.when) →
      nextEventAux after l best = some b →
      (b ∈ l ∨ best = some b) ∧ after < b.when ∧
        (∀ e ∈ l, after < e.when → b.when ≤ e.when) ∧
        (∀ b0, best = some b0 → b.when ≤ b0.when) := by
  induction l with
  | nil =>
    intro best b hbest h
    simp only [nextEventAux] at h
    refine ⟨Or.inr h, hbest b h, fun e he => absurd he (List.not_mem_nil e), ?_⟩
    intro b0 h0
    rw [h] at h0
    injection h0 with h0
    subst h0
    exact le_refl _
  | cons e rest ih =>
    intro best b hbest h
    by_cases hlt : after < e.when
    · cases best with
      | none =>
        simp only [nextEventAux, if_pos hlt] at h
        have := ih (some e) b
          (fun b0 h0 => by injection h0 with h0; subst h0; exact hlt) h
        obtain ⟨hmem, hgt, hmin, hacc⟩ := this
        have hbe : b.when ≤ e.when := hacc e rfl
        refine ⟨?_, hgt, ?_, ?_⟩
        · rcases hmem with h1 | h1
          · exact Or.inl (List.mem_cons_of_mem _ h1)
          · injection h1 with h1; subst h1
            exact Or.inl (List.mem_cons_self _ _)
        · intro x hx hxgt
          rcases List.mem_cons.mp hx with h1 | h1
          · subst h1; exact hbe
          · exact hmin x h1 hxgt
        · intro b0 h0; cases h0
      | some b1 =>
        simp only [nextEventAux, if_pos hlt] at h
        have hb1 : after < b1.when := hbest b1 rfl
        by_cases hcmp : e.when < b1.when
        · rw [if_pos hcmp] at h
          have := ih (some e) b
            (fun b0 h0 => by injection h0 with h0; subst h0; exact hlt) h
          obtain ⟨hmem, hgt, hmin, hacc⟩ := this
          have hbe : b.when ≤ e.when := hacc e rfl
          refine ⟨?_, hgt, ?_, ?_⟩
          · rcases hmem with h1 | h1
            · exact Or.inl (List.mem_cons_of_mem _ h1)
            · injection h1 with h1; subst h1
              exact Or.inl (List.mem_cons_self _ _)
          · intro x hx hxgt
            rcases List.mem_cons.mp hx with h1 | h1
            · subst h1; exact hbe
            · exact hmin x h1 hxgt
          · intro b0 h0
            injection h0 with h0; subst h0
            exact le_trans hbe (le_of_lt hcmp)
        · rw [if_neg hcmp] at h
          have := ih (some b1) b
            (fun b0 h0 => by injection h0 with h0; subst h0; exact hb1) h
          obtain ⟨hmem, hgt, hmin, hacc⟩ := this
          have hbb1 : b.when ≤ b1.when := hacc b1 rfl
          refine ⟨?_, hgt, ?_, ?_⟩
          · rcases hmem with h1 | h1
            · exact Or.inl (List.mem_cons_of_mem _ h1)
            · exact Or.inr h1
          · intro x hx hxgt
            rcases List.mem_cons.mp hx with h1 | h1
            · subst h1; exact le_trans hbb1 (not_lt.mp hcmp)
            · exact hmin x h1 hxgt
          · intro b0 h0
            injection h0 with h0; subst h0; exact hbb1
    · simp only [nextEventAux, if_neg hlt] at h
      obtain ⟨hmem, hgt, hmin, hacc⟩ := ih best b hbest h
      refine ⟨?_, hgt, ?_, hacc⟩
      · rcases hmem with h1 | h1
        · exact Or.inl (List.mem_cons_of_mem _ h1)
        · exact Or.inr h1
      · intro x hx hxgt
        rcases List.mem_cons.mp hx with h1 | h1
        · subst h1; omega
        · exact hmin x h1 hxgt

/-- C5: NextEventAfter returns none exactly when no event lies strictly
after the reference instant (in particular on the empty list), and whenever
it returns an event, that event is in the list, lies strictly after the
reference, and has the smallest instant among events strictly after it. -/
theorem nextEventAfter_spec (events : List Event) (after : Int) :
    (NextEventAfter events after = none ↔ ∀ e ∈ events, e.when ≤ after) ∧
    (∀ b, NextEventAfter events after = some b →
      b ∈ events ∧ after < b.when ∧
        ∀ e ∈ events, after < e.when → b.when ≤ e.when) := by
  constructor
  · rw [NextEventAfter, nextEventAux_eq_none]
    simp
  · intro b h
    obtain ⟨hmem, hgt, hmin, -⟩ :=
      nextEventAux_eq_some after events none b (fun b0 h0 => by cases h0) h
    rcases hmem with h1 | h1
    · exact ⟨h1, hgt, hmin⟩
    · cases h1

/-- C5 witness: a concrete query where the earlier event has passed. -/
theorem nextEventAfter_spec_witness :
    NextEventAfter [⟨("Fajr").data, 312⟩, ⟨("Dhuhr").data, 750⟩] 600 =
      some ⟨("Dhuhr").data, 750⟩ ∧
    (⟨("Dhuhr").data, 750⟩ : Event) ∈
      [⟨("Fajr").data, 312⟩, ⟨("Dhuhr").data, 750⟩] ∧
    (600 : Int) < (750 : Int) ∧
    (NextEventAfter [] 600 = none ↔ ∀ e ∈ ([] : List Event), e.when ≤ 600) := by
  have h :=
    (nextEventAfter_spec [⟨("Fajr").data, 312⟩, ⟨("Dhuhr").data, 750⟩] 600).2
      ⟨("Dhuhr").data, 750⟩ (by decide)
  exact ⟨by decide, h.1, h.2.1, (nextEventAfter_spec [] 600).1⟩

/-- Evaluation of parseDateTime when the time token has at least two
colon-separated fields and the date string has at least three dash-separated
fields with non-zero numerals. -/
lemma parseDateTime_eval (g ts : Str) (now : GoNow) (sa sb : Str)
    (rest : List Str) (sd sm sy : Str) (restd : List Str)
    (hts : goSplit ts ':' = sa :: sb :: rest)
    (hg : goSplit g '-' = sd :: sm :: sy :: restd)
    (hd0 : goAtoi sd ≠ 0) (hmo0 : goAtoi sm ≠ 0) (hy0 : goAtoi sy ≠ 0) :
    parseDateTime g ts now =
      some (goDate (goAtoi sy) (goAtoi sm) (goAtoi sd) (goAtoi sa) (goAtoi sb)) := by
  have hlen2 : ¬ ((sa :: sb :: rest).length < 2) := by
    simp only [List.length_cons]; omega
  have hlen3 : (sd :: sm :: sy :: restd).length ≥ 3 := by
    simp only [List.length_cons]; omega
  have hfb : ¬ (goAtoi sd = 0 ∨ goAtoi sm = 0 ∨ goAtoi sy = 0) := by
    push_neg
    exact ⟨hd0, hmo0, hy0⟩
  simp only [parseDateTime, hts, hg]
  rw [if_neg hlen2]
  rw [if_pos hlen3, if_pos hlen3, if_pos hlen3]
  simp only [List.getD_cons_zero, List.getD_cons_succ]
  rw [if_neg hfb, if_neg hfb, if_neg hfb]

/-- Failure of parseDateTime happens exactly when the token has fewer than
two colon-separated fields. -/
lemma parseDateTime_eq_none_iff (g ts : Str) (now : GoNow) :
    parseDateTime g ts now = none ↔ (goSplit ts ':').length < 2 := by
  by_cases h : (goSplit ts ':').length < 2
  · simp only [parseDateTime]
    rw [if_pos h]
    simp [h]
  · simp only [parseDateTime]
    rw [if_neg h]
    simp [h]

/-- An event produced by a row carries that row's prayer name. -/
lemma rowEvent_some_name {g : Str} {now : GoNow} {name t : Str} {ev : Event}
    (h : rowEvent g now name t = some ev) : ev.name = name := by
  cases hx : extractToken t with
  | none =>
    rw [rowEvent, hx] at h
    exact Option.noConfusion h
  | some ts =>
    cases hp : parseDateTime g ts now with
    | none =>
      rw [rowEvent, hx] at h
      simp only [hp] at h
      exact Option.noConfusion h
    | some dt =>
      rw [rowEvent, hx] at h
      simp only [hp] at h
      injection h with h
      rw [← h]

/-- A row is skipped exactly when it has no whitespace field at all or its
extracted token has fewer than two colon-separated fields. -/
lemma rowEvent_eq_none_iff (g : Str) (now : GoNow) (name t : Str) :
    rowEvent g now name t = none ↔
      extractToken t = none ∨
      ∃ ts, extractToken t = some ts ∧ (goSplit ts ':').length < 2 := by
  cases hx : extractToken t with
  | none => simp [rowEvent, hx]
  | some ts =>
    cases hp : parseDateTime g ts now with
    | none =>
      constructor
      · intro _
        exact Or.inr ⟨ts, rfl, (parseDateTime_eq_none_iff g ts now).mp hp⟩
      · intro _
        rw [rowEvent, hx]
        simp [hp]
    | some dt =>
      constructor
      · intro hc
        rw [rowEvent, hx] at hc
        simp [hp] at hc
      · rintro (hc | ⟨ts2, hts2, hlen⟩)
        · exact Option.noConfusion hc
        · injection hts2 with he
          subst he
          rw [← parseDateTime_eq_none_iff g ts now, hp] at hlen
          exact Option.noConfusion hlen
  
/-- An event produced by the ParseTimes loop carries its row's name. -/
lemma parseRow_some_name {resp : api.Response} {now : GoNow} {name : Str}
    {ev : Event} (h : parseRow resp now name = some ev) : ev.name = name := by
  cases hl : lookupTiming resp.data.timings name with
  | none => rw [parseRow, hl] at h; cases h
  | some t =>
    rw [parseRow, hl] at h
    exact rowEvent_some_name h

/-- Membership in a parse result is exactly row production. -/
lemma parseTimes_mem_iff (resp : api.Response) (loc : Location) (now : GoNow)
    (e : Event) :
    e ∈ ParseTimes resp loc now ↔
      ∃ name ∈ StandardOrder, parseRow resp now name = some e := by
  rw [ParseTimes, mem_sortEvents, List.mem_filterMap]

/-- C4: for rows whose tokens are valid 24-hour HH:MM clock times combined
with one valid Gregorian date (and one timezone), parsing is deterministic
and injective, and the produced instants are ordered exactly as the clock
times: distinct valid rows give distinct instants in clock order. -/
theorem parseDateTime_injective_monotone
    (g ts1 ts2 : Str) (now : GoNow)
    (sd sm sy s1h s1m s2h s2m : Str)
    (d mo y h1 m1 h2 m2 : Int)
    (hg : goSplit g '-' = [sd, sm, sy])
    (hd : goAtoi sd = d) (hmo : goAtoi sm = mo) (hy : goAtoi sy = y)
    (hd0 : d ≠ 0) (hmo0 : mo ≠ 0) (hy0 : y ≠ 0)
    (h1s : goSplit ts1 ':' = [s1h, s1m])
    (h2s : goSplit ts2 ':' = [s2h, s2m])
    (hh1 : goAtoi s1h = h1) (hm1 : goAtoi s1m = m1)
    (hh2 : goAtoi s2h = h2) (hm2 : goAtoi s2m = m2)
    (hr1 : 0 ≤ h1 ∧ h1 ≤ 23 ∧ 0 ≤ m1 ∧ m1 ≤ 59)
    (hr2 : 0 ≤ h2 ∧ h2 ≤ 23 ∧ 0 ≤ m2 ∧ m2 ≤ 59) :
    parseDateTime g ts1 now = some (goDate y mo d h1 m1) ∧
    parseDateTime g ts2 now = some (goDate y mo d h2 m2) ∧
    ((h1, m1) ≠ (h2, m2) → goDate y mo d h1 m1 ≠ goDate y mo d h2 m2) ∧
    (goDate y mo d h1 m1 < goDate y mo d h2 m2 ↔ 60 * h1 + m1 < 60 * h2 + m2) := by
  have he1 := parseDateTime_eval g ts1 now s1h s1m [] sd sm sy [] h1s hg
    (hd ▸ hd0) (hmo ▸ hmo0) (hy ▸ hy0)
  have he2 := parseDateTime_eval g ts2 now s2h s2m [] sd sm sy [] h2s hg
    (hd ▸ hd0) (hmo ▸ hmo0) (hy ▸ hy0)
  rw [hd, hmo, hy, hh1, hm1] at he1
  rw [hd, hmo, hy, hh2, hm2] at he2
  refine ⟨he1, he2, ?_, ?_⟩
  · intro hne
    have hor : h1 ≠ h2 ∨ m1 ≠ m2 := by
      by_contra hc
      push_neg at hc
      exact hne (by rw [hc.1, hc.2])
    simp only [goDate]
    obtain ⟨a1, b1, c1, d1⟩ := hr1
    obtain ⟨a2, b2, c2, d2⟩ := hr2
    omega
  · simp only [goDate]
    obtain ⟨a1, b1, c1, d1⟩ := hr1
    obtain ⟨a2, b2, c2, d2⟩ := hr2
    constructor <;> intro h <;> omega

/-- C4 witness: the rows 05:12 and 12:30 on 15-06-2024. -/
theorem parseDateTime_injective_monotone_witness :
    parseDateTime ("15-06-2024").data ("05:12").data ⟨0, 2024, 6, 15⟩ =
      some (goDate 2024 6 15 5 12) ∧
    parseDateTime ("15-06-2024").data ("12:30").data ⟨0, 2024, 6, 15⟩ =
      some (goDate 2024 6 15 12 30) ∧
    goDate 2024 6 15 5 12 ≠ goDate 2024 6 15 12 30 ∧
    goDate 2024 6 15 5 12 < goDate 2024 6 15 12 30 := by
  have h := parseDateTime_injective_monotone
    ("15-06-2024").data ("05:12").data ("12:30").data ⟨0, 2024, 6, 15⟩
    ("15").data ("06").data ("2024").data
    ("05").data ("12").data ("12").data ("30").data
    15 6 2024 5 12 12 30
    (by decide) (by decide) (by decide) (by decide)
    (by decide) (by decide) (by decide)
    (by decide) (by decide)
    (by decide) (by decide) (by decide) (by decide)
    (by decide) (by decide)
  exact ⟨h.1, h.2.1, h.2.2.1 (by decide), (h.2.2.2).mpr (by decide)⟩

/-- C10: a time token with at least two colon-separated fields is never
skipped, whatever its numerals: the row contributes an event whose instant
is the calendar-normalised combination of those numerals with the batch
date, midnight of that date plus the token's hours and minutes (rolling over
into later hours and days when out of range). -/
theorem parseTimes_total_out_of_range
    (resp : api.Response) (loc : Location) (now : GoNow)
    (name tstr ts : Str) (sa sb : Str) (rest : List Str)
    (sd sm sy : Str) (restd : List Str)
    (hname : name ∈ StandardOrder)
    (hlook : lookupTiming resp.data.timings name = some tstr)
    (htok : extractToken tstr = some ts)
    (hts : goSplit ts ':' = sa :: sb :: rest)
    (hg : goSplit (effectiveGregDate resp now) '-' = sd :: sm :: sy :: restd)
    (hd0 : goAtoi sd ≠ 0) (hmo0 : goAtoi sm ≠ 0) (hy0 : goAtoi sy ≠ 0)
    (hout : 23 < goAtoi sa ∨ 59 < goAtoi sb ∨ goAtoi sa < 0 ∨ goAtoi sb < 0) :
    (⟨name, goDate (goAtoi sy) (goAtoi sm) (goAtoi sd) (goAtoi sa) (goAtoi sb)⟩ : Event)
        ∈ ParseTimes resp loc now ∧
    goDate (goAtoi sy) (goAtoi sm) (goAtoi sd) (goAtoi sa) (goAtoi sb) =
      goDate (goAtoi sy) (goAtoi sm) (goAtoi sd) 0 0 +
        (60 * goAtoi sa + goAtoi sb) := by
  constructor
  · rw [parseTimes_mem_iff]
    refine ⟨name, hname, ?_⟩
    simp only [parseRow, hlook, rowEvent, htok,
      parseDateTime_eval _ _ _ _ _ _ _ _ _ _ hts hg hd0 hmo0 hy0]
  · simp only [goDate]
    ring

/-- C10 witness: the out-of-range token 25:70 on 15-06-2024 lands on the
following day at 02:10 and is kept. -/
theorem parseTimes_total_out_of_range_witness :
    (⟨("Fajr").data, goDate 2024 6 15 25 70⟩ : Event) ∈
      ParseTimes
        ⟨⟨[(("Fajr").data, ("25:70").data)],
          ⟨⟨("15-06-2024").data⟩, ⟨[], ⟨[], []⟩, ⟨[], []⟩⟩⟩, ⟨[]⟩⟩⟩
        ⟨("Local").data⟩ ⟨0, 2024, 6, 15⟩ ∧
    goDate 2024 6 15 25 70 = goDate 2024 6 15 0 0 + (60 * 25 + 70) ∧
    goDate 2024 6 15 25 70 = goDate 2024 6 16 2 10 := by
  have h := parseTimes_total_out_of_range
    ⟨⟨[(("Fajr").data, ("25:70").data)],
      ⟨⟨("15-06-2024").data⟩, ⟨[], ⟨[], []⟩, ⟨[], []⟩⟩⟩, ⟨[]⟩⟩⟩
    ⟨("Local").data⟩ ⟨0, 2024, 6, 15⟩
    ("Fajr").data ("25:70").data ("25:70").data ("25").data ("70").data []
    ("15").data ("06").data ("2024").data []
    (by decide) (by decide) (by decide) (by decide) (by decide)
    (by decide) (by decide) (by decide) (by decide)
  refine ⟨?_, ?_, by decide⟩
  · have h1 := h.1
    simpa using h1
  · have h2 := h.2
    simpa using h2

/-- C3 counterexample: the token aa:bb is not a well-formed 24-hour HH:MM
clock time, yet the row is not skipped: with the error-ignoring numeral
reads both fields default to zero and the row contributes a midnight event,
so the batch result is non-empty. -/
theorem parseTimes_keeps_non_hhmm_row :
    ParseTimes
      ⟨⟨[(("Fajr").data, ("aa:bb").data)],
        ⟨⟨("15-06-2024").data⟩, ⟨[], ⟨[], []⟩, ⟨[], []⟩⟩⟩, ⟨[]⟩⟩⟩
      ⟨("Local").data⟩ ⟨0, 2024, 6, 15⟩ =
      [⟨("Fajr").data, goDate 2024 6 15 0 0⟩] := by
  decide

/-- C3 amended: a row is skipped, alone and without aborting the batch,
exactly when its extracted token has fewer than two colon-separated fields
(or the raw string has no whitespace field at all); a skipped row's name
appears in no output event while every other produced row still contributes
its event. -/
theorem parseTimes_skip_malformed_continue
    (resp : api.Response) (loc : Location) (now : GoNow) (name : Str)
    (hbad : parseRow resp now name = none) :
    (∀ e ∈ ParseTimes resp loc now, e.name ≠ name) ∧
    (∀ name2 ev2, name2 ∈ StandardOrder → parseRow resp now name2 = some ev2 →
      ev2 ∈ ParseTimes resp loc now) ∧
    (∀ tstr, lookupTiming resp.data.timings name = some tstr →
      (rowEvent (effectiveGregDate resp now) now name tstr = none ↔
        extractToken tstr = none ∨
        ∃ ts, extractToken tstr = some ts ∧ (goSplit ts ':').length < 2)) := by
  refine ⟨?_, ?_, ?_⟩
  · intro e he hcontra
    rw [parseTimes_mem_iff] at he
    obtain ⟨n0, hn0, hrow⟩ := he
    have hn : e.name = n0 := parseRow_some_name hrow
    rw [hcontra] at hn
    rw [← hn] at hrow
    rw [hrow] at hbad
    exact Option.noConfusion hbad
  · intro n2 ev2 hmem hrow
    rw [parseTimes_mem_iff]
    exact ⟨n2, hmem, hrow⟩
  · intro tstr _
    exact rowEvent_eq_none_iff _ _ _ _

/-- C3 amended witness: a batch where the Fajr row has no colon and is
dropped while the Dhuhr row survives. -/
theorem parseTimes_skip_malformed_continue_witness :
    parseRow
      ⟨⟨[(("Fajr").data, ("nonsense").data), (("Dhuhr").data, ("12:30").data)],
        ⟨⟨("15-06-2024").data⟩, ⟨[], ⟨[], []⟩, ⟨[], []⟩⟩⟩, ⟨[]⟩⟩⟩
      ⟨0, 2024, 6, 15⟩ ("Fajr").data = none ∧
    (⟨("Dhuhr").data, goDate 2024 6 15 12 30⟩ : Event) ∈
      ParseTimes
        ⟨⟨[(("Fajr").data, ("nonsense").data), (("Dhuhr").data, ("12:30").data)],
          ⟨⟨("15-06-2024").data⟩, ⟨[], ⟨[], []⟩, ⟨[], []⟩⟩⟩, ⟨[]⟩⟩⟩
        ⟨("Local").data⟩ ⟨0, 2024, 6, 15⟩ := by
  refine ⟨by decide, ?_⟩
  exact (parseTimes_skip_malformed_continue
      ⟨⟨[(("Fajr").data, ("nonsense").data), (("Dhuhr").data, ("12:30").data)],
        ⟨⟨("15-06-2024").data⟩, ⟨[], ⟨[], []⟩, ⟨[], []⟩⟩⟩, ⟨[]⟩⟩⟩
      ⟨("Local").data⟩ ⟨0, 2024, 6, 15⟩ ("Fajr").data (by decide)).2.1
    ("Dhuhr").data ⟨("Dhuhr").data, goDate 2024 6 15 12 30⟩
    (by decide) (by decide)

/-- C2 amended: when the parsed event sequence is empty the status-line view
still returns a record (it never fails outright), but its text field is the
fixed string Internal Error - not a no-upcoming-prayer message - and the
tooltip carries that same string as one of its lines, together with the
fixed style class. -/
theorem waybar_build_empty_fallback
    (resp : api.Response) (db : Str → Option Location) (localLoc : Location)
    (now : GoNow) (ampm arabic short : Bool)
    (hempty : ParseTimes resp (TimezoneFromResp db localLoc resp) now = []) :
    (waybar.Build resp db localLoc now ampm arabic short).text =
      ("Internal Error").data ∧
    ("Internal Error").data ∈
      (waybar.buildParts resp db localLoc now ampm arabic short).2 ∧
    (waybar.Build resp db localLoc now ampm arabic short).cls =
      ("adhan").data := by
  have hparts : waybar.buildParts resp db localLoc now ampm arabic short =
      (("Internal Error").data,
        (if HijriString resp arabic ≠ [] then
          [("📅 ").data ++ HijriString resp arabic] else [])
          ++ [("Internal Error").data]
          ++ [[], ("Today\x27s Schedule:").data] ++ []) := by
    simp only [waybar.buildParts]
    rw [hempty]
    rfl
  refine ⟨?_, ?_, ?_⟩
  · simp only [waybar.Build, hparts]
  · rw [hparts]
    exact List.mem_append_left _
      (List.mem_append_left _
        (List.mem_append_right _ (List.mem_cons_self _ _)))
  · rfl

/-- C2 amended witness: a payload with no timings rows at all. -/
theorem waybar_build_empty_fallback_witness :
    ParseTimes
      ⟨⟨[], ⟨⟨("15-06-2024").data⟩, ⟨[], ⟨[], []⟩, ⟨[], []⟩⟩⟩, ⟨[]⟩⟩⟩
      (TimezoneFromResp (fun _ => none) ⟨("Local").data⟩
        ⟨⟨[], ⟨⟨("15-06-2024").data⟩, ⟨[], ⟨[], []⟩, ⟨[], []⟩⟩⟩, ⟨[]⟩⟩⟩)
      ⟨0, 2024, 6, 15⟩ = [] ∧
    (waybar.Build
      ⟨⟨[], ⟨⟨("15-06-2024").data⟩, ⟨[], ⟨[], []⟩, ⟨[], []⟩⟩⟩, ⟨[]⟩⟩⟩
      (fun _ => none) ⟨("Local").data⟩ ⟨0, 2024, 6, 15⟩ false false false).text =
      ("Internal Error").data := by
  refine ⟨by decide, ?_⟩
  exact (waybar_build_empty_fallback
    ⟨⟨[], ⟨⟨("15-06-2024").data⟩, ⟨[], ⟨[], []⟩, ⟨[], []⟩⟩⟩, ⟨[]⟩⟩⟩
    (fun _ => none) ⟨("Local").data⟩ ⟨0, 2024, 6, 15⟩ false false false
    (by decide)).1

/-- C2 counterexample: on an empty parse the status-line text is the string
Internal Error, which is not the no-upcoming-prayer fallback the claim
names. -/
theorem waybar_build_empty_not_no_upcoming :
    ParseTimes
      ⟨⟨[], ⟨⟨("15-06-2024").data⟩, ⟨[], ⟨[], []⟩, ⟨[], []⟩⟩⟩, ⟨[]⟩⟩⟩
      (TimezoneFromResp (fun _ => none) ⟨("Local").data⟩
        ⟨⟨[], ⟨⟨("15-06-2024").data⟩, ⟨[], ⟨[], []⟩, ⟨[], []⟩⟩⟩, ⟨[]⟩⟩⟩)
      ⟨0, 2024, 6, 15⟩ = [] ∧
    (waybar.Build
      ⟨⟨[], ⟨⟨("15-06-2024").data⟩, ⟨[], ⟨[], []⟩, ⟨[], []⟩⟩⟩, ⟨[]⟩⟩⟩
      (fun _ => none) ⟨("Local").data⟩ ⟨0, 2024, 6, 15⟩ false false false).text =
      ("Internal Error").data ∧
    (waybar.Build
      ⟨⟨[], ⟨⟨("15-06-2024").data⟩, ⟨[], ⟨[], []⟩, ⟨[], []⟩⟩⟩, ⟨[]⟩⟩⟩
      (fun _ => none) ⟨("Local").data⟩ ⟨0, 2024, 6, 15⟩ false false false).text ≠
      ("No upcoming prayer").data := by
  refine ⟨by decide, by decide, by decide⟩

/-- C1: the serve loop arms a fresh, independent timer set on every refresh
without invalidating the previous cycle's timers, so when the refresh
interval is shorter than the time to an event the same event fires once per
refresh: a single future event with two refreshes ten minutes apart yields
two notifications, not one. -/
theorem serve_duplicate_notifications :
    servedNotifications [⟨("Fajr").data, 100⟩] [0, 10] 200 =
      [⟨("Fajr").data, 100⟩, ⟨("Fajr").data, 100⟩] ∧
    (servedNotifications [⟨("Fajr").data, 100⟩] [0, 10] 200).count
      ⟨("Fajr").data, 100⟩ = 2 := by
  decide
